import Mathlib

/-!
Verification of the data-file relocation resolver of fast_rsm
(src/RSMapper/io.py, function underscore-try-to-find-files).

The filesystem is modelled as an injected predicate fs : String → Bool
(one call of os.path.isfile), and the current working directory as an
injected string, so the resolver becomes a pure function.  Python string
operations used by the source (split on a slash, join with a slash,
replace of backslashes, os.path.join on POSIX) are embedded below on the
underlying character lists.
-/

namespace RSMapper

/-- Replace a backslash character by a forward slash, all other characters kept. -/
def replSlash (c : Char) : Char := if c = '\\' then '/' else c

/-- Python x.replace of a single backslash by a slash (io.py lines 91 and 107):
a character-by-character substitution. -/
def pyReplaceBackslash (s : String) : String := ⟨s.data.map replSlash⟩

/-- Helper for splitting: prepend a character to the first piece of a split,
creating the piece when none exists. -/
def consHead (x : Char) : List (List Char) → List (List Char)
  | [] => [[x]]
  | y :: ys => (x :: y) :: ys

/-- Python str.split on a single separator character, on character lists.
Splitting the empty text yields one empty piece, as in Python. -/
def splitAux (c : Char) : List Char → List (List Char)
  | [] => [[]]
  | x :: xs => if x = c then [] :: splitAux c xs else consHead x (splitAux c xs)

/-- Python s.split(c) on strings (io.py lines 97 and 122). -/
def pySplit (c : Char) (s : String) : List String :=
  (splitAux c s.data).map String.mk

/-- Python sep.join(pieces) (io.py lines 100 and 124). -/
def pyJoin (sep : String) : List String → String
  | [] => ""
  | [x] => x
  | x :: xs => x ++ sep ++ pyJoin sep xs

/-- Whether the first character of a string is a forward slash. -/
def startsWithSlash (s : String) : Bool :=
  match s.data with
  | [] => false
  | c :: _ => c = '/'

/-- Whether the last character of a string is a forward slash. -/
def endsWithSlash (s : String) : Bool :=
  match s.data.getLast? with
  | some c => c = '/'
  | none => false

/-- os.path.join of two components on POSIX (io.py line 127): an absolute
second component discards the first; an empty or slash-terminated first
component is concatenated directly; otherwise a slash is inserted. -/
def pathJoin (a b : String) : String :=
  if startsWithSlash b then b
  else if a = "" || endsWithSlash a then a ++ b
  else a ++ "/" ++ b

/-- Ancestor list of one search path (io.py lines 96-101): the path is split
on slashes and, for j from 0 to the component count minus one, the first
(count - (j+1)) components are re-joined.  For an absolute path the final
two entries are both the empty string, because the leading empty component
is produced once alone and once as the empty join. -/
def ancestors (path : String) : List String :=
  let split := pySplit '/' path
  (List.range split.length).map (fun j => pyJoin "/" (split.take (split.length - (j + 1))))

/-- Ancestors of every entry of a list, concatenated in order. -/
def ancestorsAll : List String → List String
  | [] => []
  | r :: rs => ancestors r ++ ancestorsAll rs

/-- Root-set expansion (io.py lines 84-101): the base list is the injected
cwd followed by the additional search paths, each backslash-normalized;
the loop over the ORIGINAL base entries then appends each entry's
ancestors at the end of the list, in base order. -/
def expandRoots (cwd : String) (additional : List String) : List String :=
  let base := (cwd :: additional).map pyReplaceBackslash
  base ++ ancestorsAll base

/-- The entries of the expanded root list that are contributed by the hints,
that is the expanded list with the cwd and the ancestors generated from the
cwd removed. -/
def hintEntries (hints : List String) : List String :=
  hints.map pyReplaceBackslash ++ ancestorsAll (hints.map pyReplaceBackslash)

/-- Suffix generation for one normalized filename (io.py lines 122-124):
for j from 0 to the component count minus one, the components from index j
on are re-joined with slashes. -/
def suffixes (fname : String) : List String :=
  let split := pySplit '/' fname
  (List.range split.length).map (fun j => pyJoin "/" (split.drop j))

/-- Inner loop of candidate generation (io.py lines 125-127): one candidate
per start directory, in root order. -/
def joinEach (roots : List String) (suf : String) : List String :=
  roots.map (fun d => pathJoin d suf)

/-- Outer loop of candidate generation: suffixes outer, roots inner. -/
def candidatesOf (roots : List String) : List String → List String
  | [] => []
  | s :: ss => joinEach roots s ++ candidatesOf roots ss

/-- The candidate path list of one normalized filename (io.py lines 121-127). -/
def candidatePaths (roots : List String) (fname : String) : List String :=
  candidatesOf roots (suffixes fname)

/-- The candidate search loop (io.py lines 131-138): the first candidate the
filesystem reports as a file, the loop breaking there. -/
def firstExisting (fs : String → Bool) : List String → Option String
  | [] => none
  | c :: cs => if fs c then some c else firstExisting fs cs

/-- The candidate search loop instrumented with the list of candidates that
were actually tested: the loop body runs once per entry of the second
component. -/
def searchTrace (fs : String → Bool) : List String → Option String × List String
  | [] => (none, [])
  | c :: cs =>
    if fs c then (some c, [c])
    else ((searchTrace fs cs).1, c :: (searchTrace fs cs).2)

/-- Resolution of one already-normalized filename (io.py lines 109-146):
fast path when the filename itself is a file, otherwise the first existing
candidate, otherwise the error carrying the normalized filename and the
whole candidate list. -/
def resolveOne (fs : String → Bool) (roots : List String) (fname : String) :
    Except (String × List String) String :=
  if fs fname then Except.ok fname
  else
    match firstExisting fs (candidatePaths roots fname) with
    | some c => Except.ok c
    | none => Except.error (fname, candidatePaths roots fname)

/-- The per-filename loop (io.py lines 104-147).  Python overwrites
filenames[i] with its normalized form at line 107, so the loop threads the
list state: on success the second component is the final contents of the
caller's filenames list. -/
def findFilesLoop (fs : String → Bool) (roots : List String) :
    List String → Except (String × List String) (List String × List String)
  | [] => Except.ok ([], [])
  | f :: rest =>
    match resolveOne fs roots (pyReplaceBackslash f) with
    | Except.ok r =>
      match findFilesLoop fs roots rest with
      | Except.ok (found, muts) => Except.ok (r :: found, pyReplaceBackslash f :: muts)
      | Except.error e => Except.error e
    | Except.error e => Except.error e

/-- The resolver on a list of filenames, with the filesystem and the current
working directory injected (io.py lines 66-147). -/
def tryToFindFiles (fs : String → Bool) (cwd : String)
    (filenames : List String) (additional : List String) :
    Except (String × List String) (List String × List String) :=
  findFilesLoop fs (expandRoots cwd additional) filenames

/-- The resolved path of one filename, defaulting to the empty string when
resolution fails. -/
def resolvedPath (fs : String → Bool) (roots : List String) (f : String) : String :=
  match resolveOne fs roots (pyReplaceBackslash f) with
  | Except.ok r => r
  | Except.error _ => ""

/-- The dynamic type of the filenames argument as the Python function
receives it: either a bare str or a list of str. -/
inductive PyFiles where
  | pystr : String → PyFiles
  | pylist : List String → PyFiles

/-- The errors the Python function can raise: FileNotFoundError carrying
the message data, or the TypeError raised by item assignment on a str. -/
inductive PyError where
  | fileNotFound : String × List String → PyError
  | typeError : PyError

/-- The hasattr(filenames, "iter-attribute") test of io.py line 81: in
Python 3 both str and list define that attribute, so the test is true for
every value this function receives. -/
def hasIterAttr : PyFiles → Bool
  | _ => true

/-- io.py lines 81-82: wrap the value in a one-element list when it has no
iterator attribute.  In Python 3 the branch never fires, a str being
iterable. -/
def wrapIfNotIter (v : PyFiles) : PyFiles :=
  if hasIterAttr v then v
  else
    match v with
    | PyFiles.pystr s => PyFiles.pylist [s]
    | PyFiles.pylist l => PyFiles.pylist l

/-- The resolver with the dynamic typing of the Python source preserved.
When the filenames argument is a bare nonempty str, the first loop
iteration executes the item assignment of io.py line 107 on a str, which
raises TypeError; a bare empty str skips the loop and returns no results. -/
def tryToFindFilesPy (fs : String → Bool) (cwd : String)
    (filenames : PyFiles) (additional : List String) : Except PyError (List String) :=
  match wrapIfNotIter filenames with
  | PyFiles.pylist l =>
    match findFilesLoop fs (expandRoots cwd additional) l with
    | Except.ok (found, _) => Except.ok found
    | Except.error e => Except.error (PyError.fileNotFound e)
  | PyFiles.pystr s =>
    if s = "" then Except.ok [] else Except.error PyError.typeError

/-! Helper lemmas about the embedded Python string operations. -/

theorem splitAux_ne_nil (c : Char) (l : List Char) : splitAux c l ≠ [] := by
  induction l with
  | nil => simp [splitAux]
  | cons x xs ih =>
    simp only [splitAux]
    by_cases h : x = c
    · simp [h]
    · simp only [h, if_false]
      cases hr : splitAux c xs with
      | nil => simp [consHead]
      | cons y ys => simp [consHead]

theorem pySplit_ne_nil (c : Char) (s : String) : pySplit c s ≠ [] := by
  intro h
  exact splitAux_ne_nil c s.data (List.map_eq_nil_iff.mp h)

theorem pyJoin_consHead (x : Char) (r : List (List Char)) :
    pyJoin "/" ((consHead x r).map String.mk) =
      String.mk (x :: (pyJoin "/" (r.map String.mk)).data) := by
  match r with
  | [] => rfl
  | [y] => rfl
  | y :: z :: zs =>
    show String.mk (x :: y) ++ "/" ++ pyJoin "/" (String.mk z :: zs.map String.mk) =
      String.mk (x :: (String.mk y ++ "/" ++ pyJoin "/" (String.mk z :: zs.map String.mk)).data)
    apply String.ext
    simp [String.data_append]

theorem pyJoin_splitAux (l : List Char) :
    pyJoin "/" ((splitAux '/' l).map String.mk) = String.mk l := by
  induction l with
  | nil => rfl
  | cons x xs ih =>
    by_cases h : x = '/'
    · subst h
      have hsplit : splitAux '/' ('/' :: xs) = [] :: splitAux '/' xs := by
        simp [splitAux]
      rw [hsplit, List.map_cons]
      obtain ⟨y, ys, hys⟩ := List.exists_cons_of_ne_nil (splitAux_ne_nil '/' xs)
      rw [hys] at ih ⊢
      rw [List.map_cons] at ih ⊢
      show String.mk [] ++ "/" ++ pyJoin "/" (String.mk y :: ys.map String.mk) = _
      rw [ih]
      apply String.ext
      simp [String.data_append]
    · simp only [splitAux, if_neg h]
      rw [pyJoin_consHead, ih]

theorem pyJoin_pySplit (s : String) : pyJoin "/" (pySplit '/' s) = s :=
  pyJoin_splitAux s.data

theorem pyReplaceBackslash_eq_self (s : String) (h : '\\' ∉ s.data) :
    pyReplaceBackslash s = s := by
  unfold pyReplaceBackslash
  have hmap : s.data.map replSlash = s.data := by
    have h1 : s.data.map replSlash = s.data.map id :=
      List.map_congr_left (fun c hc => by
        unfold replSlash
        rw [if_neg]
        · rfl
        · intro he
          exact h (he ▸ hc))
    rw [h1, List.map_id]
  rw [hmap]

theorem getLast?_map_range {α : Type} (f : Nat → α) (n : Nat) :
    ((List.range (n + 1)).map f).getLast? = some (f n) := by
  rw [List.range_succ, List.map_append]
  simp

theorem drop_pred_getLast {α : Type} :
    ∀ (l : List α), l ≠ [] → ∃ x, l.drop (l.length - 1) = [x] ∧ l.getLast? = some x
  | [], h => absurd rfl h
  | [a], _ => ⟨a, rfl, rfl⟩
  | a :: b :: t, _ => by
    obtain ⟨x, hd, hl⟩ := drop_pred_getLast (b :: t) (by simp)
    refine ⟨x, ?_, ?_⟩
    · have h1 : (a :: b :: t).length - 1 = t.length + 1 := by simp
      rw [h1, List.drop_succ_cons]
      have h2 : t.length = (b :: t).length - 1 := by simp
      rw [h2]
      exact hd
    · rw [List.getLast?_cons_cons]
      exact hl

theorem suffixes_cons (fname : String) :
    ∃ t, suffixes fname = fname :: t := by
  obtain ⟨a, l, hl⟩ := List.exists_cons_of_ne_nil (pySplit_ne_nil '/' fname)
  have hsuf : suffixes fname =
      (List.range (a :: l).length).map (fun j => pyJoin "/" ((a :: l).drop j)) := by
    unfold suffixes
    rw [hl]
  rw [hsuf]
  have hlen : (a :: l).length = l.length + 1 := rfl
  rw [hlen, List.range_succ_eq_map, List.map_cons]
  have hhead : pyJoin "/" ((a :: l).drop 0) = fname := by
    rw [List.drop_zero, ← hl, pyJoin_pySplit]
  rw [hhead]
  exact ⟨_, rfl⟩

theorem suffixes_length (fname : String) :
    (suffixes fname).length = (pySplit '/' fname).length := by
  simp [suffixes]

theorem candidatesOf_length (roots : List String) :
    ∀ ss : List String, (candidatesOf roots ss).length = ss.length * roots.length
  | [] => by simp [candidatesOf]
  | s :: ss => by
    simp only [candidatesOf, List.length_append, candidatesOf_length roots ss,
      joinEach, List.length_map, List.length_cons]
    ring

theorem candidatesOf_getElem? (roots : List String) :
    ∀ (ss : List String) (s r : Nat) (suf : String),
      ss[s]? = some suf → r < roots.length →
      (candidatesOf roots ss)[s * roots.length + r]? =
        (roots[r]?).map (fun d => pathJoin d suf)
  | [], s, r, suf, hs, _ => by simp at hs
  | x :: ss, 0, r, suf, hs, hr => by
    have hx : x = suf := by simpa using hs
    subst hx
    have hlen : r < (joinEach roots x).length := by
      simpa [joinEach] using hr
    simp only [candidatesOf, Nat.zero_mul, Nat.zero_add]
    rw [List.getElem?_append_left hlen]
    simp [joinEach]
  | x :: ss, s + 1, r, suf, hs, hr => by
    have hs' : ss[s]? = some suf := by simpa using hs
    have hlen : (joinEach roots x).length = roots.length := by
      simp [joinEach]
    simp only [candidatesOf]
    rw [Nat.succ_mul]
    have hge : (joinEach roots x).length ≤ s * roots.length + roots.length + r := by
      rw [hlen]
      exact Nat.le_trans (Nat.le_add_left _ _) (Nat.le_add_right _ _)
    rw [List.getElem?_append_right hge, hlen]
    have hidx : s * roots.length + roots.length + r - roots.length =
        s * roots.length + r := by
      rw [Nat.add_right_comm]
      exact Nat.add_sub_cancel ..
    rw [hidx]
    exact candidatesOf_getElem? roots ss s r suf hs' hr

theorem map_eq_replicate {α β : Type} (f : α → β) (b : β) :
    ∀ l : List α, (∀ a, f a = b) → l.map f = List.replicate l.length b
  | [], _ => rfl
  | a :: l, h => by
    simp only [List.map_cons, List.length_cons, List.replicate_succ, h a,
      map_eq_replicate f b l h]

theorem pathJoin_empty_root (suf : String) : pathJoin "" suf = suf := by
  unfold pathJoin
  by_cases h : startsWithSlash suf
  · simp [h]
  · simp only [h]
    have : ("" : String) ++ suf = suf := by
      apply String.ext
      simp [String.data_append]
    simp [this]

theorem searchTrace_fst (fs : String → Bool) :
    ∀ l : List String, (searchTrace fs l).1 = firstExisting fs l
  | [] => rfl
  | c :: cs => by
    simp only [searchTrace, firstExisting]
    by_cases h : fs c
    · simp [h]
    · simp [h, searchTrace_fst fs cs]

theorem searchTrace_break (fs : String → Bool) :
    ∀ (l₁ : List String) (c : String) (l₂ : List String),
      (∀ x ∈ l₁, fs x = false) → fs c = true →
      searchTrace fs (l₁ ++ c :: l₂) = (some c, l₁ ++ [c])
  | [], c, l₂, _, hc => by simp [searchTrace, hc]
  | x :: l₁, c, l₂, hall, hc => by
    have hx : fs x = false := hall x (by simp)
    have ih := searchTrace_break fs l₁ c l₂ (fun y hy => hall y (by simp [hy])) hc
    simp [searchTrace, hx, ih]

theorem resolveOne_error_eq (fs : String → Bool) (roots : List String)
    (f : String) (e : String × List String)
    (h : resolveOne fs roots f = Except.error e) :
    e = (f, candidatePaths roots f) := by
  unfold resolveOne at h
  by_cases hfs : fs f
  · simp [hfs] at h
  · simp only [hfs, Bool.false_eq_true, if_false] at h
    cases hfe : firstExisting fs (candidatePaths roots f) with
    | some c => rw [hfe] at h; simp at h
    | none => rw [hfe] at h; simp at h; exact h.symm

theorem findFilesLoop_ok_muts (fs : String → Bool) (roots : List String) :
    ∀ (fnames : List String) (out : List String × List String),
      findFilesLoop fs roots fnames = Except.ok out →
      out.2 = fnames.map pyReplaceBackslash
  | [], out, h => by
    simp only [findFilesLoop] at h
    simp at h
    rw [← h]
    rfl
  | f :: rest, out, h => by
    simp only [findFilesLoop] at h
    cases h1 : resolveOne fs roots (pyReplaceBackslash f) with
    | error e => rw [h1] at h; simp at h
    | ok r =>
      rw [h1] at h
      cases h2 : findFilesLoop fs roots rest with
      | error e => rw [h2] at h; simp at h
      | ok p =>
        rw [h2] at h
        obtain ⟨found, muts⟩ := p
        simp only [Except.ok.injEq] at h
        have ih := findFilesLoop_ok_muts fs roots rest (found, muts) h2
        rw [← h, List.map_cons]
        simp only at ih
        rw [ih]

theorem findFilesLoop_fail_fast (fs : String → Bool) (roots : List String) :
    ∀ (pre : List String) (f : String) (post : List String) (e : String × List String),
      (∀ x ∈ pre, ∃ r, resolveOne fs roots (pyReplaceBackslash x) = Except.ok r) →
      resolveOne fs roots (pyReplaceBackslash f) = Except.error e →
      findFilesLoop fs roots (pre ++ f :: post) = Except.error e
  | [], f, post, e, _, herr => by
    simp only [List.nil_append, findFilesLoop]
    rw [herr]
  | x :: pre, f, post, e, hall, herr => by
    obtain ⟨r, hr⟩ := hall x (by simp)
    have ih := findFilesLoop_fail_fast fs roots pre f post e
      (fun y hy => hall y (by simp [hy])) herr
    simp only [List.cons_append, findFilesLoop, List.append_eq]
    rw [hr, ih]

theorem findFilesLoop_all_ok (fs : String → Bool) (roots : List String) :
    ∀ fnames : List String,
      (∀ f ∈ fnames, ∃ r, resolveOne fs roots (pyReplaceBackslash f) = Except.ok r) →
      findFilesLoop fs roots fnames =
        Except.ok (fnames.map (resolvedPath fs roots), fnames.map pyReplaceBackslash)
  | [], _ => rfl
  | f :: rest, hall => by
    obtain ⟨r, hr⟩ := hall f (by simp)
    have ih := findFilesLoop_all_ok fs roots rest (fun y hy => hall y (by simp [hy]))
    simp only [findFilesLoop, List.map_cons]
    rw [hr, ih]
    have hres : resolvedPath fs roots f = r := by
      unfold resolvedPath
      rw [hr]
    rw [hres]

/-! Claim theorems. -/

/-- C1: the claim says a bare string passed as the filenames argument is
treated as a one-element sequence.  The code is wrong here: the
hasattr(filenames, iterator attribute) guard of io.py line 81 is true for a
Python 3 str, so the string is never wrapped, and the first loop iteration
performs item assignment on the str (io.py line 107), raising TypeError.
This theorem evaluates the embedded code at the failing input: a bare
nonempty string always yields the TypeError outcome, never a resolution. -/
theorem c1_bare_string_type_error (fs : String → Bool) (cwd : String)
    (additional : List String) :
    tryToFindFilesPy fs cwd (PyFiles.pystr "ab") additional =
      Except.error PyError.typeError := rfl

/-- C2 counterexample: the resolver does mutate its filenames input.  With a
filename containing a backslash, the call succeeds but the final contents of
the filenames list (second component of the result) is the normalized form,
which differs from the element the caller passed. -/
theorem c2_counterexample :
    tryToFindFiles (fun s => s == "a/b") "c" ["a\\b"] [] =
      Except.ok (["a/b"], ["a/b"])
    ∧ (["a/b"] : List String) ≠ ["a\\b"] :=
  ⟨rfl, by decide⟩

/-- C2 (amended): the searchRoots input is never written to, but the
nominalPaths sequence is mutated in place: each processed element is
overwritten with its backslash-normalized form, so after a successful call
the sequence equals the element-wise normalization of the input, and it is
element-for-element unchanged exactly when no processed element contains a
backslash. -/
theorem c2_mutation_normalizes (fs : String → Bool) (cwd : String)
    (fnames additional : List String) (out : List String × List String)
    (h : tryToFindFiles fs cwd fnames additional = Except.ok out) :
    out.2 = fnames.map pyReplaceBackslash
    ∧ ((∀ f ∈ fnames, '\\' ∉ f.data) → out.2 = fnames) := by
  have h1 := findFilesLoop_ok_muts fs (expandRoots cwd additional) fnames out h
  refine ⟨h1, fun hb => ?_⟩
  rw [h1]
  have hmap : fnames.map pyReplaceBackslash = fnames.map id :=
    List.map_congr_left (fun f hf => pyReplaceBackslash_eq_self f (hb f hf))
  rw [hmap, List.map_id]

/-- C2 witness: the amended mutation theorem applied at a concrete call. -/
theorem c2_mutation_witness :
    ((["a/b"], ["a/b"]) : List String × List String).2 =
      (["a\\b"] : List String).map pyReplaceBackslash :=
  (c2_mutation_normalizes (fun s => s == "a/b") "c" ["a\\b"] []
    (["a/b"], ["a/b"]) rfl).1

/-- C3 counterexample: for the single root hint /x/y/z the hint-derived part
of the expanded root list is not the four-element list the claim states: the
empty root appears twice, because the loop of io.py lines 98-100 runs once
per component of the absolute path, producing the empty join both from the
leading empty component alone and from the empty slice.  The full expansion
for a concrete cwd also shows the cwd ancestors interleaved before the hint
ancestors rather than the hint ancestors immediately following the hint. -/
theorem c3_counterexample :
    expandRoots "c" ["/x/y/z"] = ["c", "/x/y/z", "", "/x/y", "/x", "", ""]
    ∧ hintEntries ["/x/y/z"] ≠ ["/x/y/z", "/x/y", "/x", ""] :=
  ⟨rfl, by decide⟩

/-- C3 (amended): root-set expansion keeps the base insertion order, but all
ancestor entries are appended after the whole base list (cwd first, then the
hints in order), each base entry contributing its ancestor block in base
order — not immediately after its hint; and for the single root hint /x/y/z
the hint-derived entries are exactly /x/y/z, /x/y, /x and the empty string
twice. -/
theorem c3_root_expansion :
    (∀ (cwd : String) (hints : List String),
      expandRoots cwd hints =
        pyReplaceBackslash cwd :: (hints.map pyReplaceBackslash ++
          (ancestors (pyReplaceBackslash cwd) ++
            ancestorsAll (hints.map pyReplaceBackslash))))
    ∧ hintEntries ["/x/y/z"] = ["/x/y/z", "/x/y", "/x", "", ""] := by
  constructor
  · intro cwd hints
    simp [expandRoots, ancestorsAll]
  · rfl

/-- C4 counterexample: the failure does not carry the original unmodified
path.  For the nominal path with a backslash, the error names the
backslash-normalized path, which differs from the original. -/
theorem c4_counterexample :
    tryToFindFiles (fun _ => false) "c" ["a\\b"] [] =
      Except.error ("a/b", ["c/a/b", "a/b", "c/b", "b"])
    ∧ ("a/b" : String) ≠ "a\\b" :=
  ⟨rfl, by decide⟩

/-- C4 (amended): when every candidate of a nominal path fails the existence
test, the failure carries the ordered list of every candidate tested, whose
size equals the number of suffixes times the number of roots, plus the
NORMALIZED nominal path (equal to the original path only when the original
contains no backslash). -/
theorem c4_failure_contents (fs : String → Bool) (roots : List String)
    (f : String) (e : String × List String)
    (h : resolveOne fs roots (pyReplaceBackslash f) = Except.error e) :
    e.1 = pyReplaceBackslash f
    ∧ e.2 = candidatePaths roots (pyReplaceBackslash f)
    ∧ e.2.length = (suffixes (pyReplaceBackslash f)).length * roots.length := by
  have he := resolveOne_error_eq fs roots (pyReplaceBackslash f) e h
  refine ⟨by rw [he], by rw [he], ?_⟩
  rw [he]
  exact candidatesOf_length roots (suffixes (pyReplaceBackslash f))

/-- C4 witness: the failure-contents theorem applied at a concrete failing
resolution. -/
theorem c4_failure_witness :
    (("a/b", ["c/a/b", "a/b", "c/b", "b"]) : String × List String).1 =
      pyReplaceBackslash "a\\b"
    ∧ (("a/b", ["c/a/b", "a/b", "c/b", "b"]) : String × List String).2 =
      candidatePaths ["c", ""] (pyReplaceBackslash "a\\b")
    ∧ (("a/b", ["c/a/b", "a/b", "c/b", "b"]) : String × List String).2.length =
      (suffixes (pyReplaceBackslash "a\\b")).length * (["c", ""] : List String).length :=
  c4_failure_contents (fun _ => false) ["c", ""] "a\\b"
    ("a/b", ["c/a/b", "a/b", "c/b", "b"]) rfl

/-- C5 counterexample: a path that exists on disk under its literal
backslashed name is NOT returned unchanged: the resolver normalizes before
the existence test, so the call fails although the path exists. -/
theorem c5_counterexample :
    (fun s => s == "a\\b") "a\\b" = true
    ∧ (tryToFindFiles (fun s => s == "a\\b") "c" ["a\\b"] []).toOption = none :=
  ⟨rfl, rfl⟩

/-- C5 (amended): for every path whose backslash-NORMALIZED form exists as a
file, locate of the one-element batch returns that normalized form via the
fast path (equal to the original path when it contains no backslash), with
no candidate expansion reached. -/
theorem c5_fast_path (fs : String → Bool) (cwd : String) (p : String)
    (h : fs (pyReplaceBackslash p) = true) :
    tryToFindFiles fs cwd [p] [] =
      Except.ok ([pyReplaceBackslash p], [pyReplaceBackslash p]) := by
  simp [tryToFindFiles, findFilesLoop, resolveOne, h]

/-- C5 witness: the fast-path theorem applied at a concrete existing path. -/
theorem c5_fast_path_witness :
    tryToFindFiles (fun s => s == "a") "c" ["a"] [] =
      Except.ok ([pyReplaceBackslash "a"], [pyReplaceBackslash "a"]) :=
  c5_fast_path (fun s => s == "a") "c" "a" rfl

/-- C6: candidates are enumerated suffixes-outer roots-inner — the candidate
at flat index s * (number of roots) + r is the join of root r with suffix s —
the join with the empty root is the suffix itself, and the candidate search
stops at the first existing candidate: it returns it and the trace of tested
candidates is exactly the failing prefix followed by that candidate, no later
candidate being tested. -/
theorem c6_enumeration (fs : String → Bool) (roots : List String) (fname : String)
    (l₁ l₂ : List String) (c suf : String) (s r : Nat) :
    ((suffixes fname)[s]? = some suf → r < roots.length →
        (candidatePaths roots fname)[s * roots.length + r]? =
          (roots[r]?).map (fun d => pathJoin d suf))
    ∧ pathJoin "" suf = suf
    ∧ ((∀ x ∈ l₁, fs x = false) → fs c = true →
        firstExisting fs (l₁ ++ c :: l₂) = some c
          ∧ searchTrace fs (l₁ ++ c :: l₂) = (some c, l₁ ++ [c])) := by
  refine ⟨fun hs hr => candidatesOf_getElem? roots (suffixes fname) s r suf hs hr,
    pathJoin_empty_root suf, fun hall hc => ?_⟩
  have ht := searchTrace_break fs l₁ c l₂ hall hc
  have hf := searchTrace_fst fs (l₁ ++ c :: l₂)
  exact ⟨by rw [← hf, ht], ht⟩

/-- C6 witness: the enumeration theorem applied at concrete inputs. -/
theorem c6_enumeration_witness :
    (candidatePaths ["r"] "a/b")[0 * (["r"] : List String).length + 0]? =
      ((["r"] : List String)[0]?).map (fun d => pathJoin d "a/b")
    ∧ firstExisting (fun s => s == "b") (["x"] ++ "b" :: ["y"]) = some "b"
    ∧ searchTrace (fun s => s == "b") (["x"] ++ "b" :: ["y"]) =
        (some "b", ["x"] ++ ["b"]) := by
  have h := c6_enumeration (fun s => s == "b") ["r"] "a/b" ["x"] ["y"] "b" "a/b" 0 0
  have h3 := h.2.2 (by decide) (by decide)
  exact ⟨h.1 (by decide) (by decide), h3.1, h3.2⟩

/-- C7: for every normalized nominal path, suffix generation produces
exactly as many suffixes as the path has slash-delimited components, and the
last generated suffix equals the final component (the filename) alone. -/
theorem c7_suffix_count (fname : String) :
    (suffixes fname).length = (pySplit '/' fname).length
    ∧ (suffixes fname).getLast? = (pySplit '/' fname).getLast? := by
  refine ⟨suffixes_length fname, ?_⟩
  obtain ⟨x, hd, hl⟩ := drop_pred_getLast (pySplit '/' fname) (pySplit_ne_nil '/' fname)
  obtain ⟨a, l, hsp⟩ := List.exists_cons_of_ne_nil (pySplit_ne_nil '/' fname)
  have hsuf : suffixes fname =
      (List.range ((pySplit '/' fname)).length).map
        (fun j => pyJoin "/" ((pySplit '/' fname).drop j)) := rfl
  rw [hsp] at hd hl
  rw [hsuf, hsp]
  have hlen : (a :: l).length = l.length + 1 := rfl
  rw [hlen, getLast?_map_range]
  have hll : (a :: l).length - 1 = l.length := by simp
  rw [hll] at hd
  rw [hd, hl]
  rfl

/-- C8: the batch fails fast — when every path before f resolves and f does
not, the whole call signals the error of f, naming the (normalized) nominal
path and the full candidate list attempted, and no resolutions are returned
for f or for the paths after it. -/
theorem c8_fail_fast (fs : String → Bool) (cwd : String) (additional : List String)
    (pre : List String) (f : String) (post : List String) (e : String × List String)
    (hok : ∀ x ∈ pre, ∃ r,
      resolveOne fs (expandRoots cwd additional) (pyReplaceBackslash x) = Except.ok r)
    (herr : resolveOne fs (expandRoots cwd additional) (pyReplaceBackslash f) =
      Except.error e) :
    tryToFindFiles fs cwd (pre ++ f :: post) additional = Except.error e
    ∧ e.1 = pyReplaceBackslash f
    ∧ e.2 = candidatePaths (expandRoots cwd additional) (pyReplaceBackslash f) := by
  have he := resolveOne_error_eq fs (expandRoots cwd additional)
    (pyReplaceBackslash f) e herr
  exact ⟨findFilesLoop_fail_fast fs (expandRoots cwd additional) pre f post e hok herr,
    by rw [he], by rw [he]⟩

/-- C8 witness: the fail-fast theorem applied at a concrete failing batch. -/
theorem c8_fail_fast_witness :
    tryToFindFiles (fun _ => false) "c" ["a", "b"] [] =
      Except.error ("a", ["c/a", "a"])
    ∧ (("a", ["c/a", "a"]) : String × List String).1 = pyReplaceBackslash "a"
    ∧ (("a", ["c/a", "a"]) : String × List String).2 =
      candidatePaths (expandRoots "c" []) (pyReplaceBackslash "a") :=
  c8_fail_fast (fun _ => false) "c" [] [] "a" ["b"] ("a", ["c/a", "a"])
    (fun _ hx => nomatch hx) rfl

/-- C9: when every element of the batch resolves, the call succeeds and
returns exactly one resolved path per input nominal path, in input order:
the element-wise resolution of the input list. -/
theorem c9_order_preserved (fs : String → Bool) (cwd : String)
    (additional fnames : List String)
    (hall : ∀ f ∈ fnames, ∃ r,
      resolveOne fs (expandRoots cwd additional) (pyReplaceBackslash f) = Except.ok r) :
    tryToFindFiles fs cwd fnames additional =
      Except.ok (fnames.map (resolvedPath fs (expandRoots cwd additional)),
        fnames.map pyReplaceBackslash) :=
  findFilesLoop_all_ok fs (expandRoots cwd additional) fnames hall

/-- C9 witness: the order-preservation theorem applied at a concrete batch
in which every path resolves via the fast path. -/
theorem c9_order_witness :
    tryToFindFiles (fun _ => true) "c" ["a", "b"] [] =
      Except.ok ((["a", "b"] : List String).map
          (resolvedPath (fun _ => true) (expandRoots "c" [])),
        (["a", "b"] : List String).map pyReplaceBackslash) :=
  c9_order_preserved (fun _ => true) "c" [] ["a", "b"]
    (fun f _ => ⟨pyReplaceBackslash f, rfl⟩)

/-- C10: for a nominal path whose normalized form begins with a slash, the
whole-path suffix heads the suffix list unchanged, joining it to any root
discards the root, and the first (number of roots) candidates are all
identical to the normalized nominal path, whatever the roots are. -/
theorem c10_absolute_path (roots : List String) (p : String)
    (h : startsWithSlash (pyReplaceBackslash p) = true) :
    (suffixes (pyReplaceBackslash p)).head? = some (pyReplaceBackslash p)
    ∧ (∀ rt, pathJoin rt (pyReplaceBackslash p) = pyReplaceBackslash p)
    ∧ (candidatePaths roots (pyReplaceBackslash p)).take roots.length =
        List.replicate roots.length (pyReplaceBackslash p) := by
  set fname := pyReplaceBackslash p with hf
  have hjoin : ∀ rt, pathJoin rt fname = fname := by
    intro rt
    unfold pathJoin
    simp [h]
  obtain ⟨t, ht⟩ := suffixes_cons fname
  refine ⟨by rw [ht]; rfl, hjoin, ?_⟩
  have hcand : candidatePaths roots fname = joinEach roots fname ++ candidatesOf roots t := by
    unfold candidatePaths
    rw [ht]
    rfl
  rw [hcand, List.take_left' (by simp [joinEach])]
  unfold joinEach
  exact map_eq_replicate _ _ roots hjoin

/-- C10 witness: the absolute-path theorem applied at a concrete absolute
path and concrete roots. -/
theorem c10_absolute_witness :
    (suffixes (pyReplaceBackslash "/a")).head? = some (pyReplaceBackslash "/a")
    ∧ pathJoin "r" (pyReplaceBackslash "/a") = pyReplaceBackslash "/a"
    ∧ (candidatePaths ["r", "s"] (pyReplaceBackslash "/a")).take
        (["r", "s"] : List String).length =
      List.replicate (["r", "s"] : List String).length (pyReplaceBackslash "/a") := by
  have h := c10_absolute_path ["r", "s"] "/a" (by decide)
  exact ⟨h.1, h.2.1 "r", h.2.2⟩

end RSMapper
